import Mathlib

/-!
Shallow embedding of `mopidy_qobuz/cache.py` (classes `FileCacheStorage` and
`TrackUrlCache`) and proofs about the cache's documented behaviour.

Modelling conventions:
* JSON-serializable python dict values are modelled by `JVal`; a metadata
  dict is an association list `Entry` (python dicts never hold duplicate
  keys, and every `Entry` the model itself builds is duplicate-free by
  construction of `setField`).
* Timestamps are abstract `Nat` instants.  `JVal.time t` stands for the
  ISO-8601 string `datetime.fromtimestamp(t).isoformat()`; a `JVal.str`
  in the `stored_at` field stands for a string `datetime.fromisoformat`
  rejects, so `getStoredAt` is the partial parse performed by the code.
  `datetime.min` is instant `0`; `timedelta(days=max_age_days)` is the
  `maxAge` field measured in the same abstract unit.
* The flat cache directory is `FS`, an association list from file name to
  `FileContent`.  `FileContent.record` is a file holding a JSON object,
  `FileContent.raw n` is a file of `n` opaque non-JSON bytes (a downloaded
  `.track` payload), `FileContent.truncated n` is the remnant of a write
  that was interrupted after `open(path, "w")` truncated the file.
* `os.stat().st_size` of a metadata file is approximated by `entrySize`
  (no claim depends on exact byte counts, only on size comparisons);
  `raw`/`truncated` files carry their exact size.
* `hashlib.md5(key).hexdigest()` is modelled by an injective digest
  function; which injection is irrelevant to every claim, so the key
  itself is used.
* I/O and serialization failures inside `FileCacheStorage.store` are
  injected through `StoreFail`, naming the program point where the
  exception is raised.  Partial failures inside the cleanup pass only
  ever delete files, so they are subsumed by the `atOpen` case and are
  not modelled separately.
* The network `requests.get` is a `Transport` mapping the attempt index
  to `some contentLength` (success) or `none` (a `requests.RequestException`).
* The thread/queue orchestration of `cache_track_url` is linearized: the
  worker thread runs to completion, the boolean `finishedInTime` records
  whether `retrieval_thread.join(timeout=timeout)` returned before the
  worker finished, and the background retrieval thread (spawned whenever
  the caller does not receive a path) runs afterwards.
-/

namespace MopidyQobuz

/-- A JSON-serializable python value as far as the cache manipulates them. -/
inductive JVal where
  | str (s : String)
  | num (n : Int)
  | time (t : Nat)
  deriving DecidableEq

/-- A python dict with string keys, as stored in a metadata file. -/
abbrev Entry := List (String × JVal)

/-- Dict lookup, `e.get(k)` / `e[k]`. -/
def lookupField (e : Entry) (k : String) : Option JVal :=
  match e with
  | [] => none
  | (k2, v) :: rest => if k2 = k then some v else lookupField rest k

/-- Dict membership test, `k in e`. -/
def hasField (e : Entry) (k : String) : Bool :=
  (lookupField e k).isSome

/-- Dict assignment `e[k] = v` (replaces any existing binding for `k`). -/
def setField (e : Entry) (k : String) (v : JVal) : Entry :=
  e.filter (fun p => p.1 != k) ++ [(k, v)]

/-- Dict merge `{**base, **extra}`: bindings of `extra` override `base`. -/
def mergeFields (base extra : Entry) : Entry :=
  extra.foldl (fun acc kv => setField acc kv.1 kv.2) base

/-- The `datetime.fromisoformat(entry.get("stored_at", ""))` parse used by
`retrieve` and by the cleanup scan: it succeeds exactly on a well-formed
ISO timestamp value. -/
def getStoredAt (e : Entry) : Option Nat :=
  match lookupField e "stored_at" with
  | some (.time t) => some t
  | _ => none

/-- Approximate serialized length of one value (quotes included for strings).
Claims depend only on comparisons of sizes, never on exact byte counts. -/
def jvalSize : JVal → Nat
  | .str s => s.length + 2
  | .num _ => 4
  | .time _ => 21

/-- Approximate length of `json.dumps(e)` / `str(e)`, the size the stored
metadata file reports via `st_size` and the estimate `len(str(value).encode())`
used by `store` (both encodings are proportional; no claim separates them). -/
def entrySize (e : Entry) : Nat :=
  2 + (e.map (fun p => p.1.length + 4 + jvalSize p.2)).sum

/-- Content of one file inside the cache directory. -/
inductive FileContent where
  | record (fields : Entry)
  | raw (size : Nat)
  | truncated (size : Nat)
  deriving DecidableEq

/-- The `st_size` of a file. -/
def fileSize : FileContent → Nat
  | .record e => entrySize e
  | .raw n => n
  | .truncated n => n

/-- The flat cache directory: file name to content, no duplicate names on a
real filesystem. -/
abbrev FS := List (String × FileContent)

/-- Read the file at `p`, `none` when it does not exist. -/
def fsGet (p : String) (fs : FS) : Option FileContent :=
  match fs with
  | [] => none
  | (q, c) :: rest => if q = p then some c else fsGet p rest

/-- Delete the file at `p` (`os.remove`, no-op here when absent; the code
only calls it on paths it just enumerated or checked). -/
def fsRemove (p : String) (fs : FS) : FS :=
  fs.filter (fun f => f.1 != p)

/-- Create or overwrite the file at `p` with content `c`. -/
def fsWrite (p : String) (c : FileContent) (fs : FS) : FS :=
  fsRemove p fs ++ [(p, c)]

/-- `FileCacheStorage._get_total_cache_size`: sum of `st_size` over every
regular file found in the cache directory, payload files included. -/
def totalCacheSize (fs : FS) : Nat :=
  (fs.map (fun f => fileSize f.2)).sum

/-- Configuration of a `FileCacheStorage` instance. -/
structure StorageCfg where
  maxAge : Nat
  maxTotalSizeBytes : Nat
  deriving DecidableEq

/-- Injective model of `hashlib.md5(key.encode()).hexdigest()`; the exact
digest is irrelevant to every claim, only that distinct keys give distinct
file names. -/
def md5Hex (key : String) : String := key

/-- `FileCacheStorage._get_cache_path`: metadata file name for a key. -/
def cachePath (key : String) : String := md5Hex key ++ ".cache"

/-- Payload file name built by `TrackUrlCache._cache_track_url`
(`md5(track_id) + ".track"`, in the same directory). -/
def trackPath (key : String) : String := md5Hex key ++ ".track"

/-- One row of the `cache_files` list built by the cleanup scan. -/
structure FileInfo where
  path : String
  size : Nat
  storedAt : Nat
  isExpired : Bool
  deriving DecidableEq

/-- The per-file classification done by `_cleanup_oldest_files`: a readable
record is stamped with its parsed `stored_at` and its expiry; a file whose
bytes are not a JSON object with a parseable `stored_at` gets
`stored_at = datetime.min` and `is_expired = True`. -/
def classify (maxAge now : Nat) (f : String × FileContent) : FileInfo :=
  match f.2 with
  | .record e =>
    match getStoredAt e with
    | some t => ⟨f.1, fileSize f.2, t, decide (now - t > maxAge)⟩
    | none => ⟨f.1, fileSize f.2, 0, true⟩
  | c => ⟨f.1, fileSize c, 0, true⟩

/-- Delete every file named in `ps`. -/
def removeAll (ps : List String) (fs : FS) : FS :=
  ps.foldl (fun acc p => fsRemove p acc) fs

/-- Stable insertion keeping earlier elements with equal `storedAt` first,
matching python's stable `list.sort(key=lambda x: x["stored_at"])`. -/
def insertFile (x : FileInfo) : List FileInfo → List FileInfo
  | [] => [x]
  | y :: ys => if y.storedAt ≤ x.storedAt then y :: insertFile x ys else x :: y :: ys

/-- Stable ascending sort by `storedAt`. -/
def sortByStoredAt : List FileInfo → List FileInfo
  | [] => []
  | x :: xs => insertFile x (sortByStoredAt xs)

/-- The second phase of `_cleanup_oldest_files`: walk the sorted live files,
delete one, recheck the recomputed total size and stop as soon as it is
within the limit. -/
def cleanupLiveLoop (budget : Nat) : List FileInfo → FS → FS
  | [], fs => fs
  | f :: rest, fs =>
    let fs2 := fsRemove f.path fs
    if totalCacheSize fs2 ≤ budget then fs2 else cleanupLiveLoop budget rest fs2

/-- `FileCacheStorage._cleanup_oldest_files`: classify every file, delete all
expired (or unreadable) ones, then, if the recomputed total still exceeds the
limit, delete live files oldest-first until within budget. -/
def cleanupOldestFiles (cfg : StorageCfg) (now : Nat) (fs : FS) : FS :=
  let cacheFiles := fs.map (classify cfg.maxAge now)
  let expired := sortByStoredAt (cacheFiles.filter (fun f => f.isExpired))
  let fs1 := removeAll (expired.map (fun f => f.path)) fs
  if totalCacheSize fs1 > cfg.maxTotalSizeBytes then
    let live := sortByStoredAt (cacheFiles.filter (fun f => !f.isExpired))
    cleanupLiveLoop cfg.maxTotalSizeBytes live fs1
  else fs1

/-- Failure injected into `FileCacheStorage.store`, naming the program point
where the exception is raised. -/
inductive StoreFail where
  | ok
  | early
  | atOpen
  | duringDump (written : Nat)
  deriving DecidableEq

/-- A python exception relevant to the cache module. -/
inductive PyError where
  | ioError
  | serializationError
  | nameError (missing : String)
  deriving DecidableEq

/-- Body of the `try` block of `FileCacheStorage.store`: estimate the size,
run a cleanup pass when the estimate exceeds the limit, stamp `stored_at`,
truncate the file and serialize into it.  Returns the directory state at
normal or abrupt exit together with the escaping exception, if any.
`early` raises during the size scan (nothing mutated yet), `atOpen` raises
at `open` (after any cleanup, before truncation), `duringDump n` raises
inside `json.dump` after the file was truncated and `n` bytes were written. -/
def storeBody (cfg : StorageCfg) (now : Nat) (key : String) (value : Entry)
    (fail : StoreFail) (fs : FS) : FS × Option PyError :=
  match fail with
  | .early => (fs, some .ioError)
  | fail2 =>
    let fs1 := if totalCacheSize fs + entrySize value > cfg.maxTotalSizeBytes
               then cleanupOldestFiles cfg now fs else fs
    match fail2 with
    | .atOpen => (fs1, some .ioError)
    | .duringDump n => (fsWrite (cachePath key) (.truncated n) fs1, some .serializationError)
    | _ => (fsWrite (cachePath key) (.record (setField value "stored_at" (.time now))) fs1, none)

/-- `FileCacheStorage.store`: the body wrapped in `try/except` — any
exception is logged and swallowed, the caller observes the resulting
directory state and never the error. -/
def store (cfg : StorageCfg) (now : Nat) (key : String) (value : Entry)
    (fail : StoreFail) (fs : FS) : FS :=
  (storeBody cfg now key value fail fs).1

/-- `FileCacheStorage.retrieve`: load the record at the derived path; `none`
when the file is missing, unreadable, or has an unparseable `stored_at`
(exception caught, state untouched); when the entry is expired the file is
removed and `none` is returned; otherwise the entry itself is returned. -/
def retrieve (cfg : StorageCfg) (now : Nat) (key : String) (fs : FS) :
    Option Entry × FS :=
  match fsGet (cachePath key) fs with
  | none => (none, fs)
  | some (.record e) =>
    match getStoredAt e with
    | none => (none, fs)
    | some t =>
      if now - t > cfg.maxAge then (none, fsRemove (cachePath key) fs)
      else (some e, fs)
  | some _ => (none, fs)

/-- Configuration of a `TrackUrlCache` instance. -/
structure TrackCacheCfg where
  storage : StorageCfg
  downloadTimeout : Nat
  maxRetries : Nat
  deriving DecidableEq

/-- `TrackUrlCache.__init__`.  The default-construction branch
`storage_adapter or FileCacheStorage(max_total_size_bytes=max_cache_size_bytes)`
reads the name `max_cache_size_bytes`, which is bound nowhere in the method
(it appears only in the docstring), so python raises `NameError` at that
point; only calls passing a storage adapter construct an instance. -/
def trackUrlCacheInit (storageAdapter : Option StorageCfg)
    (downloadTimeout maxRetries : Nat) : Except PyError TrackCacheCfg :=
  match storageAdapter with
  | some s => .ok ⟨s, downloadTimeout, maxRetries⟩
  | none => .error (.nameError "max_cache_size_bytes")

/-- Outcome of `requests.get(url, timeout=...)` at a given attempt index:
`some n` is a success whose body has `n` bytes, `none` a `RequestException`. -/
abbrev Transport := Nat → Option Nat

/-- The `for attempt in range(self.max_retries)` download loop of
`_cache_track_url`, returning the first successful body length (if any)
together with the number of transport invocations made.  With
`max_retries = 0` the loop body never runs and the function falls through,
returning `None` after zero invocations. -/
def runAttempts (transport : Transport) : Nat → Nat → Option Nat × Nat
  | _, 0 => (none, 0)
  | attempt, r + 1 =>
    match transport attempt with
    | some bytes => (some bytes, 1)
    | none =>
      if r = 0 then (none, 1)
      else
        let rc := runAttempts transport (attempt + 1) r
        (rc.1, rc.2 + 1)

/-- Result of one worker run of `_cache_track_url`: the value returned (the
path string, a cached `local_path` value, or `None`), the number of
transport invocations, and the directory state afterwards. -/
structure WorkerOut where
  result : Option JVal
  calls : Nat
  fs : FS
  deriving DecidableEq

/-- The cache-miss tail of `_cache_track_url`: retry the download; on the
first success write the payload bytes to the `.track` file, build the
metadata dict (caller metadata merged last, overriding) and store it, then
return the payload path. -/
def downloadAndStore (cfg : TrackCacheCfg) (now : Nat) (trackId : String)
    (extra : Entry) (sf : StoreFail) (transport : Transport) (fs : FS) : WorkerOut :=
  match runAttempts transport 0 cfg.maxRetries with
  | (some bytes, c) =>
    let p := trackPath trackId
    let fs1 := fsWrite p (.raw bytes) fs
    let meta := mergeFields
      [("track_id", .str trackId), ("local_path", .str p), ("size_bytes", .num bytes)]
      extra
    ⟨some (.str p), c, store cfg.storage now trackId meta sf fs1⟩
  | (none, c) => ⟨none, c, fs⟩

/-- `TrackUrlCache._cache_track_url`: consult the entry store first; a
truthy (non-empty) entry containing `local_path` short-circuits with that
stored value and no transport invocation; otherwise download. -/
def cacheTrackUrlWorker (cfg : TrackCacheCfg) (now : Nat) (trackId : String)
    (extra : Entry) (sf : StoreFail) (transport : Transport) (fs : FS) : WorkerOut :=
  match retrieve cfg.storage now trackId fs with
  | (some e, fs0) =>
    if !e.isEmpty && hasField e "local_path" then
      ⟨lookupField e "local_path", 0, fs0⟩
    else downloadAndStore cfg now trackId extra sf transport fs0
  | (none, fs0) => downloadAndStore cfg now trackId extra sf transport fs0

/-- The worker's branch condition, `cached_entry and "local_path" in
cached_entry`: does the lookup hit a truthy entry holding a `local_path`? -/
def hitsLocalPath (cfg : StorageCfg) (now : Nat) (key : String) (fs : FS) : Bool :=
  match (retrieve cfg now key fs).1 with
  | some e => !e.isEmpty && hasField e "local_path"
  | none => false

/-- Result of one call to the public `cache_track_url`: the value handed to
the caller, the transport invocations made by the worker thread and by the
background retrieval thread, and the final directory state. -/
structure OrchOut where
  result : Option JVal
  workerCalls : Nat
  bgCalls : Nat
  fs : FS
  deriving DecidableEq

/-- `TrackUrlCache.cache_track_url`: run `_cache_track_url` on a worker
thread and join with a short timeout.  When the join returns in time and the
worker produced a non-`None` value, that value is returned; in every other
case (`None` result, or the queue still empty) a background retrieval thread
re-running `_cache_track_url` is spawned and `None` is returned.  The model
linearizes the threads: the worker completes, then the background thread
(whose transport outcomes `bgTransport` may differ call-by-call) runs. -/
def cacheTrackUrl (cfg : TrackCacheCfg) (now : Nat) (trackId : String)
    (extra : Entry) (sf : StoreFail) (transport bgTransport : Transport)
    (finishedInTime : Bool) (fs : FS) : OrchOut :=
  let w := cacheTrackUrlWorker cfg now trackId extra sf transport fs
  if finishedInTime then
    match w.result with
    | some v => ⟨some v, w.calls, 0, w.fs⟩
    | none =>
      let bg := cacheTrackUrlWorker cfg now trackId extra sf bgTransport w.fs
      ⟨none, w.calls, bg.calls, bg.fs⟩
  else
    let bg := cacheTrackUrlWorker cfg now trackId extra sf bgTransport w.fs
    ⟨none, w.calls, bg.calls, bg.fs⟩

/-- Modelled from the spec (refinement target, deliberately NOT from the
source): a size-budget total that counts only metadata records, giving
payload files no weight, as §3 of the spec asserts the accounting does. -/
def metadataOnlyCacheSize (fs : FS) : Nat :=
  (fs.map (fun f => match f.2 with | .record e => entrySize e | _ => 0)).sum

/-! ### Helper lemmas about entries -/

theorem lookupField_append (e1 e2 : Entry) (k : String) :
    lookupField (e1 ++ e2) k =
      match lookupField e1 k with
      | some v => some v
      | none => lookupField e2 k := by
  induction e1 with
  | nil => rfl
  | cons p rest ih =>
    obtain ⟨a, w⟩ := p
    by_cases h : a = k <;> simp [lookupField, h, ih]

theorem lookupField_filter_self (e : Entry) (k : String) :
    lookupField (e.filter (fun p => p.1 != k)) k = none := by
  induction e with
  | nil => rfl
  | cons p rest ih =>
    obtain ⟨a, w⟩ := p
    by_cases h : a = k
    · simp [List.filter_cons, h, ih]
    · simp [List.filter_cons, h, lookupField, ih]

theorem lookupField_filter_other (e : Entry) (k k2 : String) (h : k2 ≠ k) :
    lookupField (e.filter (fun p => p.1 != k)) k2 = lookupField e k2 := by
  induction e with
  | nil => rfl
  | cons p rest ih =>
    obtain ⟨a, w⟩ := p
    by_cases ha : a = k
    · subst ha
      have : a ≠ k2 := fun hh => h hh.symm
      simp [List.filter_cons, lookupField, this, ih]
    · by_cases ha2 : a = k2 <;> simp [List.filter_cons, ha, ha2, lookupField, ih, h]

theorem lookupField_setField_self (e : Entry) (k : String) (v : JVal) :
    lookupField (setField e k v) k = some v := by
  rw [setField, lookupField_append, lookupField_filter_self]
  simp [lookupField]

theorem lookupField_setField_ne (e : Entry) (k k2 : String) (v : JVal) (h : k2 ≠ k) :
    lookupField (setField e k v) k2 = lookupField e k2 := by
  rw [setField, lookupField_append, lookupField_filter_other e k k2 h]
  cases hl : lookupField e k2 <;> simp [lookupField, Ne.symm h]

theorem lookupField_mergeFields (base extra : Entry) (k : String)
    (h : lookupField extra k = none) :
    lookupField (mergeFields base extra) k = lookupField base k := by
  induction extra generalizing base with
  | nil => rfl
  | cons p rest ih =>
    obtain ⟨a, w⟩ := p
    have ha : ¬a = k := by
      intro hak
      simp [lookupField, hak] at h
    have hr : lookupField rest k = none := by
      simpa [lookupField, ha] using h
    have hka : k ≠ a := fun hh => ha hh.symm
    calc lookupField (mergeFields base ((a, w) :: rest)) k
        = lookupField (mergeFields (setField base a w) rest) k := rfl
      _ = lookupField (setField base a w) k := ih _ hr
      _ = lookupField base k := lookupField_setField_ne base a k w hka

theorem setField_not_isEmpty (e : Entry) (k : String) (v : JVal) :
    (setField e k v).isEmpty = false := by
  simp [setField]

theorem lookupField_some_not_isEmpty (e : Entry) (k : String) (v : JVal)
    (h : lookupField e k = some v) : e.isEmpty = false := by
  cases e with
  | nil => simp [lookupField] at h
  | cons p rest => rfl

/-! ### Helper lemmas about the filesystem model -/

theorem fsGet_append (fs1 fs2 : FS) (p : String) :
    fsGet p (fs1 ++ fs2) =
      match fsGet p fs1 with
      | some c => some c
      | none => fsGet p fs2 := by
  induction fs1 with
  | nil => rfl
  | cons f rest ih =>
    obtain ⟨q, c⟩ := f
    by_cases h : q = p <;> simp [fsGet, h, ih]

theorem fsGet_fsRemove_self (p : String) (fs : FS) :
    fsGet p (fsRemove p fs) = none := by
  induction fs with
  | nil => rfl
  | cons f rest ih =>
    obtain ⟨q, c⟩ := f
    by_cases h : q = p
    · simpa [fsRemove, List.filter_cons, h] using ih
    · simpa [fsRemove, List.filter_cons, h, fsGet] using ih

theorem fsGet_fsRemove_ne (p q : String) (fs : FS) (h : q ≠ p) :
    fsGet q (fsRemove p fs) = fsGet q fs := by
  induction fs with
  | nil => rfl
  | cons f rest ih =>
    obtain ⟨r, c⟩ := f
    by_cases hr : r = p
    · subst hr
      have hrq : r ≠ q := fun hh => h hh.symm
      simpa [fsRemove, List.filter_cons, fsGet, hrq] using ih
    · by_cases hq : r = q
      · subst hq
        simp [fsRemove, List.filter_cons, hr, fsGet]
      · simpa [fsRemove, List.filter_cons, hr, hq, fsGet] using ih

theorem fsGet_fsWrite_self (p : String) (c : FileContent) (fs : FS) :
    fsGet p (fsWrite p c fs) = some c := by
  rw [fsWrite, fsGet_append, fsGet_fsRemove_self]
  simp [fsGet]

theorem fsGet_fsWrite_ne (p q : String) (c : FileContent) (fs : FS) (h : q ≠ p) :
    fsGet q (fsWrite p c fs) = fsGet q fs := by
  rw [fsWrite, fsGet_append, fsGet_fsRemove_ne p q fs h]
  cases hl : fsGet q fs <;> simp [fsGet, Ne.symm h]

theorem removeAll_nil (fs : FS) : removeAll [] fs = fs := rfl

theorem removeAll_cons (p : String) (ps : List String) (fs : FS) :
    removeAll (p :: ps) fs = removeAll ps (fsRemove p fs) := rfl

theorem fsGet_removeAll (ps : List String) (fs : FS) (q : String) :
    fsGet q (removeAll ps fs) = if ps.contains q then none else fsGet q fs := by
  induction ps generalizing fs with
  | nil => simp [removeAll_nil]
  | cons p rest ih =>
    rw [removeAll_cons, ih]
    by_cases h : q = p
    · subst h
      rw [fsGet_fsRemove_self]
      simp [List.contains_cons]
    · rw [fsGet_fsRemove_ne p q fs h]
      have hc : (p :: rest).contains q = rest.contains q := by
        simp [List.contains_cons, h]
      rw [hc]

theorem fsGet_removeAll_or (ps : List String) (fs : FS) (q : String) :
    fsGet q (removeAll ps fs) = fsGet q fs ∨ fsGet q (removeAll ps fs) = none := by
  rw [fsGet_removeAll]
  split
  · exact Or.inr rfl
  · exact Or.inl rfl

theorem fsGet_mem (p : String) (c : FileContent) (fs : FS)
    (h : fsGet p fs = some c) : (p, c) ∈ fs := by
  induction fs with
  | nil => simp [fsGet] at h
  | cons f rest ih =>
    obtain ⟨q, d⟩ := f
    by_cases hq : q = p
    · subst hq
      simp [fsGet] at h
      simp [h]
    · simp [fsGet, hq] at h
      exact List.mem_cons_of_mem _ (ih h)

/-! ### Helper lemmas about the stable sort -/

theorem mem_insertFile (x z : FileInfo) (l : List FileInfo) :
    z ∈ insertFile x l ↔ z = x ∨ z ∈ l := by
  induction l with
  | nil => simp [insertFile]
  | cons y ys ih =>
    by_cases h : y.storedAt ≤ x.storedAt
    · simp only [insertFile, if_pos h, List.mem_cons, ih]
      tauto
    · simp only [insertFile, if_neg h, List.mem_cons]

theorem insertFile_perm (x : FileInfo) (l : List FileInfo) :
    List.Perm (insertFile x l) (x :: l) := by
  induction l with
  | nil => exact List.Perm.refl _
  | cons y ys ih =>
    by_cases h : y.storedAt ≤ x.storedAt
    · simp only [insertFile, if_pos h]
      exact (ih.cons y).trans (List.Perm.swap x y ys)
    · simp only [insertFile, if_neg h]
      exact List.Perm.refl _

theorem sortByStoredAt_perm (l : List FileInfo) :
    List.Perm (sortByStoredAt l) l := by
  induction l with
  | nil => exact List.Perm.refl _
  | cons x xs ih =>
    exact (insertFile_perm x (sortByStoredAt xs)).trans (ih.cons x)

theorem pairwise_insertFile (x : FileInfo) (l : List FileInfo)
    (h : l.Pairwise (fun a b => a.storedAt ≤ b.storedAt)) :
    (insertFile x l).Pairwise (fun a b => a.storedAt ≤ b.storedAt) := by
  induction l with
  | nil => simp [insertFile]
  | cons y ys ih =>
    rcases List.pairwise_cons.mp h with ⟨hy, hys⟩
    by_cases hle : y.storedAt ≤ x.storedAt
    · simp only [insertFile, if_pos hle]
      refine List.pairwise_cons.mpr ⟨?_, ih hys⟩
      intro z hz
      rcases (mem_insertFile x z ys).mp hz with rfl | hzin
      · exact hle
      · exact hy z hzin
    · simp only [insertFile, if_neg hle]
      have hxy : x.storedAt ≤ y.storedAt := Nat.le_of_lt (Nat.lt_of_not_le hle)
      refine List.pairwise_cons.mpr ⟨?_, h⟩
      intro z hz
      rcases List.mem_cons.mp hz with rfl | hzin
      · exact hxy
      · exact Nat.le_trans hxy (hy z hzin)

theorem sortByStoredAt_sorted (l : List FileInfo) :
    (sortByStoredAt l).Pairwise (fun a b => a.storedAt ≤ b.storedAt) := by
  induction l with
  | nil => simp [sortByStoredAt]
  | cons x xs ih => exact pairwise_insertFile x _ ih

/-! ### Characterization of the eviction loop -/

theorem cleanupLiveLoop_cons (budget : Nat) (f : FileInfo) (rest : List FileInfo)
    (fs : FS) :
    cleanupLiveLoop budget (f :: rest) fs =
      if totalCacheSize (fsRemove f.path fs) ≤ budget then fsRemove f.path fs
      else cleanupLiveLoop budget rest (fsRemove f.path fs) := rfl

/-- The live-file phase of the cleanup deletes exactly some oldest-first
prefix of its candidate list: before each deletion of that prefix the total
was still over budget, and either the final total is within budget or the
candidates were exhausted. -/
theorem cleanupLiveLoop_spec (budget : Nat) (live : List FileInfo) (fs : FS)
    (h : totalCacheSize fs > budget) :
    ∃ k ≤ live.length,
      cleanupLiveLoop budget live fs
          = removeAll ((live.take k).map (fun f => f.path)) fs
      ∧ (∀ j < k,
          totalCacheSize (removeAll ((live.take j).map (fun f => f.path)) fs) > budget)
      ∧ (totalCacheSize (cleanupLiveLoop budget live fs) ≤ budget ∨ k = live.length) := by
  induction live generalizing fs with
  | nil =>
    refine ⟨0, Nat.le_refl 0, rfl, ?_, Or.inr rfl⟩
    intro j hj
    exact absurd hj (Nat.not_lt_zero j)
  | cons f rest ih =>
    by_cases hle : totalCacheSize (fsRemove f.path fs) ≤ budget
    · refine ⟨1, by simp, ?_, ?_, Or.inl ?_⟩
      · rw [cleanupLiveLoop_cons, if_pos hle]
        rfl
      · intro j hj
        have hj0 : j = 0 := Nat.lt_one_iff.mp hj
        subst hj0
        simpa [removeAll_nil] using h
      · rw [cleanupLiveLoop_cons, if_pos hle]
        exact hle
    · have h2 : totalCacheSize (fsRemove f.path fs) > budget := Nat.lt_of_not_le hle
      rcases ih (fsRemove f.path fs) h2 with ⟨k, hk, heq, hmin, hstop⟩
      refine ⟨k + 1, Nat.succ_le_succ hk, ?_, ?_, ?_⟩
      · rw [cleanupLiveLoop_cons, if_neg hle, heq]
        rfl
      · intro j hj
        cases j with
        | zero => simpa [removeAll_nil] using h
        | succ j2 =>
          have : j2 < k := Nat.lt_of_succ_lt_succ hj
          simpa [List.take, removeAll_cons] using hmin j2 this
      · rw [cleanupLiveLoop_cons, if_neg hle]
        rcases hstop with hs | hs
        · exact Or.inl hs
        · exact Or.inr (by simp [hs])

/-- The cleanup pass only ever deletes files: any path afterwards holds
either its old content or nothing. -/
theorem fsGet_cleanupOldestFiles (cfg : StorageCfg) (now : Nat) (fs : FS) (p : String) :
    fsGet p (cleanupOldestFiles cfg now fs) = fsGet p fs
    ∨ fsGet p (cleanupOldestFiles cfg now fs) = none := by
  rw [cleanupOldestFiles]
  simp only []
  set fs1 := removeAll
    ((sortByStoredAt ((fs.map (classify cfg.maxAge now)).filter (fun f => f.isExpired))).map
      (fun f => f.path)) fs with hfs1
  by_cases hb : totalCacheSize fs1 > cfg.maxTotalSizeBytes
  · rw [if_pos hb]
    rcases cleanupLiveLoop_spec cfg.maxTotalSizeBytes
      (sortByStoredAt ((fs.map (classify cfg.maxAge now)).filter (fun f => !f.isExpired)))
      fs1 hb with ⟨k, _, heq, _, _⟩
    rw [heq]
    rcases fsGet_removeAll_or _ fs1 p with h1 | h1
    · rw [h1]
      exact fsGet_removeAll_or _ fs p
    · exact Or.inr h1
  · rw [if_neg hb]
    exact fsGet_removeAll_or _ fs p

/-- Unfolding of a failure-free `store`: after the possible cleanup pass the
stamped record is written at the derived path. -/
theorem store_ok_eq (cfg : StorageCfg) (now : Nat) (key : String) (value : Entry)
    (fs : FS) :
    store cfg now key value .ok fs
      = fsWrite (cachePath key) (.record (setField value "stored_at" (.time now)))
          (if totalCacheSize fs + entrySize value > cfg.maxTotalSizeBytes
           then cleanupOldestFiles cfg now fs else fs) := rfl

/-- Retrieving at any not-yet-expired instant after a failure-free `store`
returns exactly the stamped record. -/
theorem retrieve_after_store_ok (cfg : StorageCfg) (now now2 : Nat) (key : String)
    (value : Entry) (fs : FS) (h2 : now2 - now ≤ cfg.maxAge) :
    retrieve cfg now2 key (store cfg now key value .ok fs)
      = (some (setField value "stored_at" (.time now)),
         store cfg now key value .ok fs) := by
  have hget : fsGet (cachePath key) (store cfg now key value .ok fs)
      = some (.record (setField value "stored_at" (.time now))) := by
    rw [store_ok_eq]
    exact fsGet_fsWrite_self _ _ _
  have hst : getStoredAt (setField value "stored_at" (.time now)) = some now := by
    rw [getStoredAt, lookupField_setField_self]
  rw [retrieve, hget]
  simp only [hst]
  rw [if_neg (Nat.not_lt.mpr h2)]

/-! ### C10 -/

/-- C10: constructing `TrackUrlCache` without an explicit storage adapter
raises `NameError`, because the default branch reads the unbound name
`max_cache_size_bytes`; only constructions passing an adapter succeed. -/
theorem trackUrlCacheInit_default_nameError (d r : Nat) :
    trackUrlCacheInit none d r = .error (.nameError "max_cache_size_bytes")
    ∧ ∀ s : StorageCfg, trackUrlCacheInit (some s) d r = .ok ⟨s, d, r⟩ :=
  ⟨rfl, fun _ => rfl⟩

/-! ### C3 -/

/-- C3 counterexample: in a state holding one 100-byte payload file, the
total actually compared against the budget (`totalCacheSize`, used by both
`store` and the cleanup pass) counts those 100 payload bytes, whereas the
claimed metadata-only total would be 0. -/
theorem totalCacheSize_counts_payload_counterexample :
    totalCacheSize [("p.track", FileContent.raw 100)] = 100
    ∧ metadataOnlyCacheSize [("p.track", FileContent.raw 100)] = 0
    ∧ totalCacheSize [("p.track", FileContent.raw 100)]
        ≠ metadataOnlyCacheSize [("p.track", FileContent.raw 100)] := by
  decide

/-- C3 amended: the size-budget total counts every regular file in the cache
directory, payload files included — a payload file referenced by
`local_path` contributes its full byte size to the total, while the spec's
metadata-only accounting would give it no weight. -/
theorem totalCacheSize_counts_every_file (fs : FS) (p : String) (n : Nat) :
    totalCacheSize ((p, FileContent.raw n) :: fs) = n + totalCacheSize fs
    ∧ metadataOnlyCacheSize ((p, FileContent.raw n) :: fs) = metadataOnlyCacheSize fs := by
  constructor
  · simp [totalCacheSize, fileSize]
  · simp [metadataOnlyCacheSize]

/-! ### C7 -/

/-- C7: retrieving a key whose entry is older than the age limit returns
absent and deletes the metadata file, so a subsequent retrieve or existence
check for the same key also reports absent. -/
theorem retrieve_expired_lazy_delete (cfg : StorageCfg) (now : Nat) (key : String)
    (fs : FS) (e : Entry) (t : Nat)
    (hget : fsGet (cachePath key) fs = some (.record e))
    (ht : getStoredAt e = some t)
    (hexp : now - t > cfg.maxAge) :
    retrieve cfg now key fs = (none, fsRemove (cachePath key) fs)
    ∧ fsGet (cachePath key) (fsRemove (cachePath key) fs) = none
    ∧ retrieve cfg now key (fsRemove (cachePath key) fs)
        = (none, fsRemove (cachePath key) fs) := by
  refine ⟨?_, fsGet_fsRemove_self _ _, ?_⟩
  · rw [retrieve, hget]
    simp only [ht]
    rw [if_pos hexp]
  · rw [retrieve, fsGet_fsRemove_self]

/-- C7 witness: a concrete expired entry. -/
theorem retrieve_expired_lazy_delete_witness :
    (fsGet (cachePath "k") [("k.cache", FileContent.record [("stored_at", JVal.time 1)])]
        = some (.record [("stored_at", JVal.time 1)])
      ∧ getStoredAt [("stored_at", JVal.time 1)] = some 1
      ∧ 50 - 1 > (10 : Nat))
    ∧ (retrieve ⟨10, 100⟩ 50 "k" [("k.cache", FileContent.record [("stored_at", JVal.time 1)])]
        = (none, fsRemove (cachePath "k")
            [("k.cache", FileContent.record [("stored_at", JVal.time 1)])])
      ∧ fsGet (cachePath "k") (fsRemove (cachePath "k")
          [("k.cache", FileContent.record [("stored_at", JVal.time 1)])]) = none
      ∧ retrieve ⟨10, 100⟩ 50 "k" (fsRemove (cachePath "k")
            [("k.cache", FileContent.record [("stored_at", JVal.time 1)])])
          = (none, fsRemove (cachePath "k")
              [("k.cache", FileContent.record [("stored_at", JVal.time 1)])])) :=
  ⟨⟨by decide, by decide, by decide⟩,
   retrieve_expired_lazy_delete ⟨10, 100⟩ 50 "k"
     [("k.cache", FileContent.record [("stored_at", JVal.time 1)])]
     [("stored_at", JVal.time 1)] 1 (by decide) (by decide) (by decide)⟩

/-! ### C4 -/

/-- C4: after `store(k, v)` immediately followed by `retrieve(k)` the
returned entry carries every field of `v` plus a freshly stamped, parseable
`stored_at`. -/
theorem store_retrieve_roundtrip (cfg : StorageCfg) (now : Nat) (key : String)
    (v : Entry) (fs : FS) (hv : hasField v "stored_at" = false) :
    retrieve cfg now key (store cfg now key v .ok fs)
        = (some (setField v "stored_at" (.time now)), store cfg now key v .ok fs)
    ∧ (∀ k2 x, lookupField v k2 = some x
        → lookupField (setField v "stored_at" (.time now)) k2 = some x)
    ∧ getStoredAt (setField v "stored_at" (.time now)) = some now := by
  have hnone : lookupField v "stored_at" = none := by
    cases hl : lookupField v "stored_at" with
    | none => rfl
    | some w =>
      rw [hasField, hl] at hv
      simp at hv
  refine ⟨?_, ?_, ?_⟩
  · exact retrieve_after_store_ok cfg now now key v fs (by rw [Nat.sub_self]; exact Nat.zero_le _)
  · intro k2 x hx
    have hk2 : k2 ≠ "stored_at" := by
      intro he
      rw [he, hnone] at hx
      exact Option.noConfusion hx
    rw [lookupField_setField_ne v "stored_at" k2 (.time now) hk2]
    exact hx
  · rw [getStoredAt, lookupField_setField_self]

/-- C4 witness: a concrete store-then-retrieve round trip. -/
theorem store_retrieve_roundtrip_witness :
    hasField [("a", JVal.str "x")] "stored_at" = false
    ∧ (retrieve ⟨30, 1000000⟩ 7 "k" (store ⟨30, 1000000⟩ 7 "k" [("a", JVal.str "x")] .ok [])
        = (some (setField [("a", JVal.str "x")] "stored_at" (.time 7)),
           store ⟨30, 1000000⟩ 7 "k" [("a", JVal.str "x")] .ok [])
      ∧ (∀ k2 x, lookupField [("a", JVal.str "x")] k2 = some x
          → lookupField (setField [("a", JVal.str "x")] "stored_at" (.time 7)) k2 = some x)
      ∧ getStoredAt (setField [("a", JVal.str "x")] "stored_at" (.time 7)) = some 7) :=
  ⟨by decide, store_retrieve_roundtrip ⟨30, 1000000⟩ 7 "k" [("a", JVal.str "x")] [] (by decide)⟩

/-! ### C1 -/

/-- Prior state for C1: the key `k` already holds a live entry. -/
def c1Prior : FS :=
  [("k.cache", FileContent.record [("a", JVal.str "old"), ("stored_at", JVal.time 5)])]

/-- C1 counterexample: a serialization failure raised inside `json.dump`,
after `open(path, "w")` has already truncated the metadata file, leaves a
truncated record at the key's path — the on-disk state for the key is
neither the prior entry unchanged nor the key absent. -/
theorem store_failure_truncates_counterexample :
    fsGet (cachePath "k")
        (store ⟨30, 1000000⟩ 9 "k" [("b", JVal.str "new")] (.duringDump 0) c1Prior)
      ≠ fsGet (cachePath "k") c1Prior
    ∧ fsGet (cachePath "k")
        (store ⟨30, 1000000⟩ 9 "k" [("b", JVal.str "new")] (.duringDump 0) c1Prior)
      ≠ none := by
  decide

/-- Amended C1 contract: the body's exception is real but swallowed — the
caller always receives the resulting directory state — and after a failed
store the key's path holds the prior content, or nothing, or (when the
failure hits during serialization, after the truncating open) a truncated
partial record. -/
def StoreFailureState (cfg : StorageCfg) (now : Nat) (key : String) (v : Entry)
    (fail : StoreFail) (fs : FS) : Prop :=
  (storeBody cfg now key v fail fs).2.isSome = true
  ∧ store cfg now key v fail fs = (storeBody cfg now key v fail fs).1
  ∧ (fsGet (cachePath key) (store cfg now key v fail fs) = fsGet (cachePath key) fs
     ∨ fsGet (cachePath key) (store cfg now key v fail fs) = none
     ∨ ∃ n, fsGet (cachePath key) (store cfg now key v fail fs)
         = some (.truncated n))

/-- C1 amended: `store` never raises to its caller; on any failure the
on-disk state for the key is the prior entry unchanged, the key absent, or a
truncated partially-written record (itself treated as corrupt/absent by
`retrieve` and by the cleanup pass). -/
theorem store_failure_state (cfg : StorageCfg) (now : Nat) (key : String)
    (v : Entry) (fail : StoreFail) (fs : FS) (h : fail ≠ .ok) :
    StoreFailureState cfg now key v fail fs := by
  cases fail with
  | ok => exact absurd rfl h
  | early => exact ⟨rfl, rfl, Or.inl rfl⟩
  | atOpen =>
    refine ⟨rfl, rfl, ?_⟩
    have hstore : store cfg now key v .atOpen fs
        = (if totalCacheSize fs + entrySize v > cfg.maxTotalSizeBytes
           then cleanupOldestFiles cfg now fs else fs) := rfl
    rw [hstore]
    by_cases hc : totalCacheSize fs + entrySize v > cfg.maxTotalSizeBytes
    · rw [if_pos hc]
      rcases fsGet_cleanupOldestFiles cfg now fs (cachePath key) with h1 | h1
      · exact Or.inl h1
      · exact Or.inr (Or.inl h1)
    · rw [if_neg hc]
      exact Or.inl rfl
  | duringDump n =>
    refine ⟨rfl, rfl, Or.inr (Or.inr ⟨n, ?_⟩)⟩
    have hstore : store cfg now key v (.duringDump n) fs
        = fsWrite (cachePath key) (.truncated n)
            (if totalCacheSize fs + entrySize v > cfg.maxTotalSizeBytes
             then cleanupOldestFiles cfg now fs else fs) := rfl
    rw [hstore]
    exact fsGet_fsWrite_self _ _ _

/-- C1 witness: a concrete failing store over a prior entry. -/
theorem store_failure_state_witness :
    (StoreFail.atOpen ≠ StoreFail.ok)
    ∧ StoreFailureState ⟨30, 1000⟩ 9 "k" [("b", JVal.str "new")] .atOpen c1Prior :=
  ⟨by decide,
   store_failure_state ⟨30, 1000⟩ 9 "k" [("b", JVal.str "new")] .atOpen c1Prior (by decide)⟩

/-! ### C9 -/

theorem classify_path (m n : Nat) (f : String × FileContent) :
    (classify m n f).path = f.1 := by
  obtain ⟨p, c⟩ := f
  cases c with
  | record e => cases h : getStoredAt e <;> simp [classify, h]
  | raw s => rfl
  | truncated s => rfl

theorem contains_of_mem (l : List String) (a : String) (h : a ∈ l) :
    l.contains a = true := by
  induction l with
  | nil => cases h
  | cons b bs ih =>
    rcases List.mem_cons.mp h with rfl | hbs
    · simp [List.contains_cons]
    · have := ih hbs
      simp [List.contains_cons]
      exact Or.inr hbs

/-- Any file the scan classifies as expired (or corrupt) is gone after the
cleanup pass, whatever the budget. -/
theorem fsGet_cleanup_none_of_expired (cfg : StorageCfg) (now : Nat) (fs : FS)
    (p : String) (c : FileContent) (hmem : (p, c) ∈ fs)
    (hexp : (classify cfg.maxAge now (p, c)).isExpired = true) :
    fsGet p (cleanupOldestFiles cfg now fs) = none := by
  have hsort : classify cfg.maxAge now (p, c)
      ∈ sortByStoredAt ((fs.map (classify cfg.maxAge now)).filter (fun f => f.isExpired)) :=
    ((sortByStoredAt_perm _).mem_iff).mpr
      (List.mem_filter.mpr ⟨List.mem_map_of_mem _ hmem, hexp⟩)
  have hpath : p ∈ (sortByStoredAt ((fs.map (classify cfg.maxAge now)).filter
      (fun f => f.isExpired))).map (fun f => f.path) :=
    List.mem_map.mpr ⟨_, hsort, classify_path _ _ _⟩
  have h1 : fsGet p (removeAll ((sortByStoredAt ((fs.map (classify cfg.maxAge now)).filter
      (fun f => f.isExpired))).map (fun f => f.path)) fs) = none := by
    rw [fsGet_removeAll, if_pos (contains_of_mem _ _ hpath)]
  have hcl0 : cleanupOldestFiles cfg now fs
      = (if totalCacheSize (removeAll ((sortByStoredAt ((fs.map (classify cfg.maxAge now)).filter
            (fun f => f.isExpired))).map (fun f => f.path)) fs) > cfg.maxTotalSizeBytes
         then cleanupLiveLoop cfg.maxTotalSizeBytes
            (sortByStoredAt ((fs.map (classify cfg.maxAge now)).filter (fun f => !f.isExpired)))
            (removeAll ((sortByStoredAt ((fs.map (classify cfg.maxAge now)).filter
              (fun f => f.isExpired))).map (fun f => f.path)) fs)
         else removeAll ((sortByStoredAt ((fs.map (classify cfg.maxAge now)).filter
            (fun f => f.isExpired))).map (fun f => f.path)) fs) := rfl
  rw [hcl0]
  by_cases hb : totalCacheSize (removeAll ((sortByStoredAt ((fs.map (classify cfg.maxAge now)).filter
      (fun f => f.isExpired))).map (fun f => f.path)) fs) > cfg.maxTotalSizeBytes
  · rw [if_pos hb]
    rcases cleanupLiveLoop_spec cfg.maxTotalSizeBytes
      (sortByStoredAt ((fs.map (classify cfg.maxAge now)).filter (fun f => !f.isExpired)))
      _ hb with ⟨k, _, heq, _, _⟩
    rw [heq]
    rcases fsGet_removeAll_or _ _ p with h2 | h2
    · rw [h2, h1]
    · exact h2
  · rw [if_neg hb]
    exact h1

/-- A cleanup-pass input for C9: one live metadata record whose `local_path`
points at a payload file, and that payload file, both within budget. -/
def c9State : FS :=
  [("m.cache", FileContent.record
      [("local_path", JVal.str "m.track"), ("stored_at", JVal.time 35)]),
   ("m.track", FileContent.raw 50)]

/-- The C9 conclusion: a payload file is classified corrupt (minimal
`storedAt`, expired) and removed by any cleanup pass however large the
budget; concretely, a surviving live record can be left pointing at a
`local_path` that no longer exists. -/
def PayloadPurged (cfg : StorageCfg) (now : Nat) (fs : FS) (p : String) (n : Nat) : Prop :=
  fsGet p (cleanupOldestFiles cfg now fs) = none
  ∧ (classify cfg.maxAge now (p, .raw n)).isExpired = true
  ∧ (classify cfg.maxAge now (p, .raw n)).storedAt = 0
  ∧ fsGet "m.cache" (cleanupOldestFiles ⟨30, 1000000⟩ 40 c9State)
      = some (.record [("local_path", JVal.str "m.track"), ("stored_at", JVal.time 35)])
  ∧ lookupField [("local_path", JVal.str "m.track"), ("stored_at", JVal.time 35)] "local_path"
      = some (JVal.str "m.track")
  ∧ fsGet "m.track" (cleanupOldestFiles ⟨30, 1000000⟩ 40 c9State) = none

/-- C9: every payload file (bytes that are not JSON with a valid
`stored_at`) is treated as corrupt, hence expired with minimal `storedAt`,
and deleted in the expired-removal phase of every cleanup pass regardless of
the size budget; afterwards surviving metadata may reference missing
`local_path` files. -/
theorem cleanup_deletes_payload_files (cfg : StorageCfg) (now : Nat) (fs : FS)
    (p : String) (n : Nat) (hp : fsGet p fs = some (.raw n)) :
    PayloadPurged cfg now fs p n := by
  refine ⟨?_, rfl, rfl, by decide, by decide, by decide⟩
  exact fsGet_cleanup_none_of_expired cfg now fs p (.raw n) (fsGet_mem _ _ _ hp) rfl

/-- C9 witness: the concrete state `c9State`. -/
theorem cleanup_deletes_payload_files_witness :
    fsGet "m.track" c9State = some (.raw 50)
    ∧ PayloadPurged ⟨30, 1000000⟩ 40 c9State "m.track" 50 :=
  ⟨by decide, cleanup_deletes_payload_files ⟨30, 1000000⟩ 40 c9State "m.track" 50 (by decide)⟩

/-! ### C2 -/

/-- The two-phase eviction contract of C2: after one cleanup pass every
expired entry is gone; the live candidates are exactly the live entries,
walked in ascending `storedAt` order; the pass equals removing all expired
files and then some oldest-first prefix of the live candidates, where before
each live deletion the total still exceeded the budget, and at the end
either the total is within budget or every live candidate was deleted. -/
def CleanupTwoPhase (cfg : StorageCfg) (now : Nat) (fs : FS) : Prop :=
  let infos := fs.map (classify cfg.maxAge now)
  let live := sortByStoredAt (infos.filter (fun f => !f.isExpired))
  let fs1 := removeAll ((sortByStoredAt (infos.filter (fun f => f.isExpired))).map
    (fun f => f.path)) fs
  (∀ f ∈ infos, f.isExpired = true → fsGet f.path (cleanupOldestFiles cfg now fs) = none)
  ∧ List.Perm live (infos.filter (fun f => !f.isExpired))
  ∧ live.Pairwise (fun a b => a.storedAt ≤ b.storedAt)
  ∧ ∃ k ≤ live.length,
      cleanupOldestFiles cfg now fs = removeAll ((live.take k).map (fun f => f.path)) fs1
      ∧ (∀ j < k, totalCacheSize (removeAll ((live.take j).map (fun f => f.path)) fs1)
            > cfg.maxTotalSizeBytes)
      ∧ (totalCacheSize (cleanupOldestFiles cfg now fs) ≤ cfg.maxTotalSizeBytes
         ∨ k = live.length)

/-- C2: on an over-budget state one cleanup pass removes every expired entry
before removing any live entry, then removes live entries oldest-first,
rechecking the total after each deletion and stopping as soon as it is
within the budget. -/
theorem cleanup_two_phase (cfg : StorageCfg) (now : Nat) (fs : FS)
    (hover : totalCacheSize fs > cfg.maxTotalSizeBytes) :
    CleanupTwoPhase cfg now fs := by
  refine ⟨?_, sortByStoredAt_perm _, sortByStoredAt_sorted _, ?_⟩
  · intro f hf hfe
    rcases List.mem_map.mp hf with ⟨pc, hpc, hcl⟩
    obtain ⟨p, c⟩ := pc
    have hexp : (classify cfg.maxAge now (p, c)).isExpired = true := by
      rw [hcl]; exact hfe
    have hpathf : f.path = p := by
      rw [← hcl, classify_path]
    rw [hpathf]
    exact fsGet_cleanup_none_of_expired cfg now fs p c hpc hexp
  · have hcl0 : cleanupOldestFiles cfg now fs
        = (if totalCacheSize (removeAll ((sortByStoredAt ((fs.map (classify cfg.maxAge now)).filter
              (fun f => f.isExpired))).map (fun f => f.path)) fs) > cfg.maxTotalSizeBytes
           then cleanupLiveLoop cfg.maxTotalSizeBytes
              (sortByStoredAt ((fs.map (classify cfg.maxAge now)).filter (fun f => !f.isExpired)))
              (removeAll ((sortByStoredAt ((fs.map (classify cfg.maxAge now)).filter
                (fun f => f.isExpired))).map (fun f => f.path)) fs)
           else removeAll ((sortByStoredAt ((fs.map (classify cfg.maxAge now)).filter
              (fun f => f.isExpired))).map (fun f => f.path)) fs) := rfl
    by_cases hb : totalCacheSize (removeAll ((sortByStoredAt ((fs.map (classify cfg.maxAge now)).filter
        (fun f => f.isExpired))).map (fun f => f.path)) fs) > cfg.maxTotalSizeBytes
    · rcases cleanupLiveLoop_spec cfg.maxTotalSizeBytes
        (sortByStoredAt ((fs.map (classify cfg.maxAge now)).filter (fun f => !f.isExpired)))
        _ hb with ⟨k, hk, heq, hmin, hstop⟩
      refine ⟨k, hk, ?_, hmin, ?_⟩
      · rw [hcl0, if_pos hb]
        exact heq
      · rw [hcl0, if_pos hb]
        exact hstop
    · refine ⟨0, Nat.zero_le _, ?_, ?_, ?_⟩
      · rw [hcl0, if_neg hb]
        rfl
      · intro j hj
        exact absurd hj (Nat.not_lt_zero j)
      · rw [hcl0, if_neg hb]
        exact Or.inl (Nat.le_of_not_lt hb)

/-- An over-budget state mixing live, expired and corrupt files, for the C2
witness. -/
def c2State : FS :=
  [("a.cache", FileContent.record [("stored_at", JVal.time 95)]),
   ("b.cache", FileContent.record [("stored_at", JVal.time 85)]),
   ("old.cache", FileContent.record [("stored_at", JVal.time 5)]),
   ("junk.track", FileContent.raw 30)]

/-- C2 witness: the concrete over-budget state `c2State`. -/
theorem cleanup_two_phase_witness :
    totalCacheSize c2State > (⟨10, 50⟩ : StorageCfg).maxTotalSizeBytes
    ∧ CleanupTwoPhase ⟨10, 50⟩ 100 c2State :=
  ⟨by decide, cleanup_two_phase ⟨10, 50⟩ 100 c2State (by decide)⟩

/-! ### C5 -/

theorem retrieve_miss (cfg : StorageCfg) (now : Nat) (key : String) (fs : FS)
    (h : fsGet (cachePath key) fs = none) :
    retrieve cfg now key fs = (none, fs) := by
  rw [retrieve, h]

theorem runAttempts_alwaysFail (a r : Nat) :
    runAttempts (fun _ => none) a r = (none, r) := by
  induction r generalizing a with
  | zero => rfl
  | succ r2 ih =>
    cases r2 with
    | zero => rfl
    | succ r3 =>
      show ((runAttempts (fun _ => none) (a + 1) (r3 + 1)).1,
            (runAttempts (fun _ => none) (a + 1) (r3 + 1)).2 + 1) = (none, r3 + 1 + 1)
      rw [ih (a + 1)]

/-- An always-failing transport drives the worker through its full retry
loop with no state change. -/
theorem worker_alwaysFail (cfg : TrackCacheCfg) (now : Nat) (id : String)
    (extra : Entry) (sf : StoreFail) (fs : FS)
    (hmiss : fsGet (cachePath id) fs = none) :
    cacheTrackUrlWorker cfg now id extra sf (fun _ => none) fs
      = ⟨none, cfg.maxRetries, fs⟩ := by
  simp only [cacheTrackUrlWorker, retrieve_miss cfg.storage now id fs hmiss]
  simp only [downloadAndStore, runAttempts_alwaysFail]

/-- The C5 outcome as the code gives it: a miss is returned and the worker
invokes the transport exactly `maxRetries` times, but because a `None`
worker result always spawns a background retrieval that runs the same retry
loop again, the transport is invoked `2 * maxRetries` times in total. -/
def AlwaysFailRetries (cfg : TrackCacheCfg) (now : Nat) (id : String) (extra : Entry)
    (sf : StoreFail) (fit : Bool) (fs : FS) : Prop :=
  (cacheTrackUrl cfg now id extra sf (fun _ => none) (fun _ => none) fit fs).result = none
  ∧ (cacheTrackUrl cfg now id extra sf (fun _ => none) (fun _ => none) fit fs).workerCalls
      = cfg.maxRetries
  ∧ (cacheTrackUrl cfg now id extra sf (fun _ => none) (fun _ => none) fit fs).workerCalls
      + (cacheTrackUrl cfg now id extra sf (fun _ => none) (fun _ => none) fit fs).bgCalls
      = 2 * cfg.maxRetries

/-- C5 counterexample: with `maxRetries = 1` and an always-failing
transport, the public call returns a miss but invokes the transport twice —
once in the worker and once in the always-spawned background retrieval —
not exactly `maxRetries = 1` times. -/
theorem cacheTrackUrl_retries_twice_counterexample :
    (cacheTrackUrl ⟨⟨30, 1000⟩, 30, 1⟩ 0 "t" [] .ok (fun _ => none) (fun _ => none)
        true []).result = none
    ∧ (⟨⟨30, 1000⟩, 30, 1⟩ : TrackCacheCfg).maxRetries = 1
    ∧ (cacheTrackUrl ⟨⟨30, 1000⟩, 30, 1⟩ 0 "t" [] .ok (fun _ => none) (fun _ => none)
          true []).workerCalls
        + (cacheTrackUrl ⟨⟨30, 1000⟩, 30, 1⟩ 0 "t" [] .ok (fun _ => none) (fun _ => none)
            true []).bgCalls = 2
    ∧ ¬((cacheTrackUrl ⟨⟨30, 1000⟩, 30, 1⟩ 0 "t" [] .ok (fun _ => none) (fun _ => none)
          true []).workerCalls
        + (cacheTrackUrl ⟨⟨30, 1000⟩, 30, 1⟩ 0 "t" [] .ok (fun _ => none) (fun _ => none)
            true []).bgCalls
        = (⟨⟨30, 1000⟩, 30, 1⟩ : TrackCacheCfg).maxRetries) := by
  decide

/-- C5 amended: for an uncached key and an always-failing transport the call
returns a miss; the worker makes exactly `maxRetries` attempts, and counting
the background retrieval the transport is invoked `2 * maxRetries` times. -/
theorem cacheTrackUrl_alwaysFail (cfg : TrackCacheCfg) (now : Nat) (id : String)
    (extra : Entry) (sf : StoreFail) (fit : Bool) (fs : FS)
    (hmiss : fsGet (cachePath id) fs = none) :
    AlwaysFailRetries cfg now id extra sf fit fs := by
  have hw := worker_alwaysFail cfg now id extra sf fs hmiss
  have horch : cacheTrackUrl cfg now id extra sf (fun _ => none) (fun _ => none) fit fs
      = ⟨none, cfg.maxRetries, cfg.maxRetries, fs⟩ := by
    cases fit <;> simp [cacheTrackUrl, hw]
  refine ⟨?_, ?_, ?_⟩
  · rw [horch]
  · rw [horch]
  · rw [horch]
    show cfg.maxRetries + cfg.maxRetries = 2 * cfg.maxRetries
    exact (Nat.two_mul _).symm

/-- C5 witness: uncached key, empty state, three retries. -/
theorem cacheTrackUrl_alwaysFail_witness :
    fsGet (cachePath "t") [] = none
    ∧ AlwaysFailRetries ⟨⟨30, 1000⟩, 30, 3⟩ 0 "t" [] .ok true [] :=
  ⟨by decide, cacheTrackUrl_alwaysFail ⟨⟨30, 1000⟩, 30, 3⟩ 0 "t" [] .ok true [] (by decide)⟩

/-! ### C6 -/

/-- The value the worker's hit branch hands back, `cached_entry["local_path"]`:
the `local_path` field stored under the key, when the lookup hits. -/
def cachedLocalPath (cfg : StorageCfg) (now : Nat) (key : String) (fs : FS) : Option JVal :=
  match (retrieve cfg now key fs).1 with
  | some e => lookupField e "local_path"
  | none => none

/-- With `maxRetries = 0` the download loop body never runs: the worker
makes no transport invocation, returns the stored `local_path` value on a
truthy hit and `None` otherwise. -/
theorem worker_zeroRetries (st : StorageCfg) (dt : Nat) (now : Nat) (id : String)
    (extra : Entry) (sf : StoreFail) (t : Transport) (fs : FS) :
    (cacheTrackUrlWorker ⟨st, dt, 0⟩ now id extra sf t fs).calls = 0
    ∧ (hitsLocalPath st now id fs = false
        → (cacheTrackUrlWorker ⟨st, dt, 0⟩ now id extra sf t fs).result = none)
    ∧ (hitsLocalPath st now id fs = true
        → (cacheTrackUrlWorker ⟨st, dt, 0⟩ now id extra sf t fs).result
              = cachedLocalPath st now id fs
          ∧ (cachedLocalPath st now id fs).isSome = true) := by
  have hda : ∀ fs2, downloadAndStore ⟨st, dt, 0⟩ now id extra sf t fs2 = ⟨none, 0, fs2⟩ :=
    fun fs2 => rfl
  rcases hre : retrieve st now id fs with ⟨r, fs0⟩
  cases r with
  | none =>
    have hw : cacheTrackUrlWorker ⟨st, dt, 0⟩ now id extra sf t fs = ⟨none, 0, fs0⟩ := by
      simp only [cacheTrackUrlWorker, hre]
      exact hda fs0
    have hh : hitsLocalPath st now id fs = false := by
      rw [hitsLocalPath, hre]
    refine ⟨by rw [hw], fun _ => by rw [hw], fun hc => ?_⟩
    rw [hh] at hc
    exact Bool.noConfusion hc
  | some e =>
    by_cases hb : (!e.isEmpty && hasField e "local_path") = true
    · have hw : cacheTrackUrlWorker ⟨st, dt, 0⟩ now id extra sf t fs
          = ⟨lookupField e "local_path", 0, fs0⟩ := by
        simp only [cacheTrackUrlWorker, hre, hb, if_true]
      have hh : hitsLocalPath st now id fs = true := by
        rw [hitsLocalPath, hre]
        exact hb
      have hcp : cachedLocalPath st now id fs = lookupField e "local_path" := by
        simp only [cachedLocalPath, hre]
      refine ⟨by rw [hw], fun hc => ?_, fun _ => ⟨?_, ?_⟩⟩
      · rw [hh] at hc
        exact Bool.noConfusion hc
      · rw [hw, hcp]
      · rw [hcp]
        have hb2 := hb
        rw [Bool.and_eq_true] at hb2
        exact hb2.2
    · have hbf : (!e.isEmpty && hasField e "local_path") = false :=
        Bool.not_eq_true _ ▸ Bool.eq_false_iff.mpr hb
      have hw : cacheTrackUrlWorker ⟨st, dt, 0⟩ now id extra sf t fs = ⟨none, 0, fs0⟩ := by
        simp only [cacheTrackUrlWorker, hre, hbf, if_false, Bool.false_eq_true]
        exact hda fs0
      have hh : hitsLocalPath st now id fs = false := by
        rw [hitsLocalPath, hre]
        exact hbf
      refine ⟨by rw [hw], fun _ => by rw [hw], fun hc => ?_⟩
      rw [hh] at hc
      exact Bool.noConfusion hc

/-- The C6 outcome as the code gives it: with `maxRetries = 0` neither the
worker nor the background retrieval ever invokes the transport; the call
returns a miss whenever the lookup does not hit a cached `local_path`, and
on a hit observed within the join timeout it returns exactly the stored
`local_path` value (which is present), still without any network access. -/
def ZeroRetriesNoNetwork (st : StorageCfg) (dt : Nat) (now : Nat) (id : String)
    (extra : Entry) (sf : StoreFail) (t bgt : Transport) (fit : Bool) (fs : FS) : Prop :=
  (cacheTrackUrl ⟨st, dt, 0⟩ now id extra sf t bgt fit fs).workerCalls = 0
  ∧ (cacheTrackUrl ⟨st, dt, 0⟩ now id extra sf t bgt fit fs).bgCalls = 0
  ∧ (hitsLocalPath st now id fs = false
      → (cacheTrackUrl ⟨st, dt, 0⟩ now id extra sf t bgt fit fs).result = none)
  ∧ (hitsLocalPath st now id fs = true → fit = true
      → (cacheTrackUrl ⟨st, dt, 0⟩ now id extra sf t bgt fit fs).result
            = cachedLocalPath st now id fs
        ∧ (cachedLocalPath st now id fs).isSome = true)

/-- C6 counterexample: with `maxRetries = 0` but the key already cached with
a `local_path`, the call returns exactly the stored path `t.track`, not the
miss (`None`) the claim asserts for every key — and still makes no network
attempt. -/
theorem zero_retries_cached_counterexample :
    (cacheTrackUrl ⟨⟨30, 1000⟩, 30, 0⟩ 0 "t" [] .ok (fun _ => none) (fun _ => none) true
        [("t.cache", FileContent.record
            [("local_path", JVal.str "t.track"), ("stored_at", JVal.time 0)])]).result
      = some (JVal.str "t.track")
    ∧ (cacheTrackUrl ⟨⟨30, 1000⟩, 30, 0⟩ 0 "t" [] .ok (fun _ => none) (fun _ => none) true
        [("t.cache", FileContent.record
            [("local_path", JVal.str "t.track"), ("stored_at", JVal.time 0)])]).result
      ≠ none
    ∧ (cacheTrackUrl ⟨⟨30, 1000⟩, 30, 0⟩ 0 "t" [] .ok (fun _ => none) (fun _ => none) true
        [("t.cache", FileContent.record
            [("local_path", JVal.str "t.track"), ("stored_at", JVal.time 0)])]).workerCalls
      + (cacheTrackUrl ⟨⟨30, 1000⟩, 30, 0⟩ 0 "t" [] .ok (fun _ => none) (fun _ => none) true
        [("t.cache", FileContent.record
            [("local_path", JVal.str "t.track"), ("stored_at", JVal.time 0)])]).bgCalls = 0
    ∧ (⟨⟨30, 1000⟩, 30, 0⟩ : TrackCacheCfg).maxRetries = 0 := by
  decide

/-- C6 amended: with `maxRetries = 0` no network attempt is ever made (by
the worker or the background retrieval); the call returns a miss whenever
the key has no truthy cached entry with a `local_path`, and on a hit
observed within the join timeout it returns exactly the stored `local_path`
value, still with no network attempt. -/
theorem cacheTrackUrl_zeroRetries (st : StorageCfg) (dt : Nat) (now : Nat)
    (id : String) (extra : Entry) (sf : StoreFail) (t bgt : Transport) (fit : Bool)
    (fs : FS) (h0 : (⟨st, dt, 0⟩ : TrackCacheCfg).maxRetries = 0) :
    ZeroRetriesNoNetwork st dt now id extra sf t bgt fit fs := by
  obtain ⟨hwc, hwn, hws⟩ := worker_zeroRetries st dt now id extra sf t fs
  rcases hw : cacheTrackUrlWorker ⟨st, dt, 0⟩ now id extra sf t fs with ⟨r, cw, fsw⟩
  have hcw : cw = 0 := by rw [hw] at hwc; exact hwc
  subst hcw
  rcases hbg : cacheTrackUrlWorker ⟨st, dt, 0⟩ now id extra sf bgt fsw with ⟨rb, cb, fsb⟩
  have hcb : cb = 0 := by
    have := (worker_zeroRetries st dt now id extra sf bgt fsw).1
    rw [hbg] at this
    exact this
  subst hcb
  cases fit with
  | false =>
    have horch : cacheTrackUrl ⟨st, dt, 0⟩ now id extra sf t bgt false fs
        = ⟨none, 0, 0, fsb⟩ := by
      simp only [cacheTrackUrl, hw, hbg, if_false, Bool.false_eq_true]
    refine ⟨by rw [horch], by rw [horch], fun _ => by rw [horch], fun hh hf => ?_⟩
    exact Bool.noConfusion hf
  | true =>
    cases r with
    | none =>
      have horch : cacheTrackUrl ⟨st, dt, 0⟩ now id extra sf t bgt true fs
          = ⟨none, 0, 0, fsb⟩ := by
        simp only [cacheTrackUrl, hw, hbg, if_true]
      refine ⟨by rw [horch], by rw [horch], fun _ => by rw [horch], fun hh _ => ?_⟩
      obtain ⟨heq, hisome⟩ := hws hh
      rw [hw] at heq
      exact ⟨by rw [horch]; exact heq, hisome⟩
    | some v =>
      have horch : cacheTrackUrl ⟨st, dt, 0⟩ now id extra sf t bgt true fs
          = ⟨some v, 0, 0, fsw⟩ := by
        simp only [cacheTrackUrl, hw, if_true]
      refine ⟨by rw [horch], by rw [horch], fun hh => ?_, fun hh _ => ?_⟩
      · have := hwn hh
        rw [hw] at this
        exact Option.noConfusion this
      · obtain ⟨heq, hisome⟩ := hws hh
        rw [hw] at heq
        exact ⟨by rw [horch]; exact heq, hisome⟩

/-- C6 witness: uncached key on an empty state, zero retries. -/
theorem cacheTrackUrl_zeroRetries_witness :
    (⟨⟨30, 1000⟩, 30, 0⟩ : TrackCacheCfg).maxRetries = 0
    ∧ ZeroRetriesNoNetwork ⟨30, 1000⟩ 30 0 "t" [] .ok (fun _ => none) (fun _ => none)
        true [] :=
  ⟨by decide,
   cacheTrackUrl_zeroRetries ⟨30, 1000⟩ 30 0 "t" [] .ok (fun _ => none) (fun _ => none)
     true [] (by decide)⟩

/-! ### C8 -/

/-- A truthy cached entry holding `local_path` makes the worker return that
stored value with no transport invocation and no state change. -/
theorem worker_hit (cfg : TrackCacheCfg) (now : Nat) (id : String) (extra : Entry)
    (sf : StoreFail) (t : Transport) (fs : FS) (e : Entry) (t0 : Nat) (v : JVal)
    (hget : fsGet (cachePath id) fs = some (.record e))
    (ht : getStoredAt e = some t0)
    (hlive : now - t0 ≤ cfg.storage.maxAge)
    (hlp : lookupField e "local_path" = some v) :
    cacheTrackUrlWorker cfg now id extra sf t fs = ⟨some v, 0, fs⟩ := by
  have hre : retrieve cfg.storage now id fs = (some e, fs) := by
    rw [retrieve, hget]
    simp only [ht]
    rw [if_neg (Nat.not_lt.mpr hlive)]
  have hcond : (!e.isEmpty && hasField e "local_path") = true := by
    rw [lookupField_some_not_isEmpty e "local_path" v hlp, hasField, hlp]
    rfl
  simp only [cacheTrackUrlWorker, hre, hcond, if_true]
  rw [hlp]

/-- On a worker hit the public call hands back the stored value with no
transport invocation at all and no background thread. -/
theorem cacheTrackUrl_hit (cfg : TrackCacheCfg) (now : Nat) (id : String)
    (extra : Entry) (sf : StoreFail) (t bgt : Transport) (fs : FS) (e : Entry)
    (t0 : Nat) (v : JVal)
    (hget : fsGet (cachePath id) fs = some (.record e))
    (ht : getStoredAt e = some t0)
    (hlive : now - t0 ≤ cfg.storage.maxAge)
    (hlp : lookupField e "local_path" = some v) :
    cacheTrackUrl cfg now id extra sf t bgt true fs = ⟨some v, 0, 0, fs⟩ := by
  have hw := worker_hit cfg now id extra sf t fs e t0 v hget ht hlive hlp
  simp only [cacheTrackUrl, hw, if_true]

/-- On a cache miss with a first successful download attempt, the worker
writes the payload, stores the stamped metadata and returns the payload
path after exactly one transport invocation. -/
theorem worker_first_success (cfg : TrackCacheCfg) (now : Nat) (id : String)
    (extra : Entry) (sf : StoreFail) (t : Transport) (fs : FS) (b : Nat)
    (hmiss : fsGet (cachePath id) fs = none)
    (hb : t 0 = some b)
    (hmr : 0 < cfg.maxRetries) :
    cacheTrackUrlWorker cfg now id extra sf t fs
      = ⟨some (.str (trackPath id)), 1,
         store cfg.storage now id
           (mergeFields
             [("track_id", .str id), ("local_path", .str (trackPath id)),
              ("size_bytes", .num b)] extra)
           sf (fsWrite (trackPath id) (.raw b) fs)⟩ := by
  have hra : runAttempts t 0 cfg.maxRetries = (some b, 1) := by
    rcases Nat.exists_eq_add_of_lt hmr with ⟨r, hr⟩
    rw [Nat.zero_add] at hr
    rw [hr]
    show (match t 0 with
          | some bytes => (some bytes, 1)
          | none =>
            if r = 0 then (none, 1)
            else
              let rc := runAttempts t (0 + 1) r
              (rc.1, rc.2 + 1)) = (some b, 1)
    rw [hb]
  simp only [cacheTrackUrlWorker, retrieve_miss cfg.storage now id fs hmiss]
  simp only [downloadAndStore, hra]

/-- The C8 contract: a cached `local_path` hit short-circuits with the
stored value and no transport invocation; and after a first successful
fetch for an uncached key a second call returns the identical path with no
further transport invocation. -/
def HitShortCircuits (cfg : TrackCacheCfg) (now now2 : Nat) (id : String)
    (extra : Entry) (t bgt : Transport) (v : JVal) (fs fsm : FS) : Prop :=
  cacheTrackUrl cfg now id extra .ok t bgt true fs = ⟨some v, 0, 0, fs⟩
  ∧ (cacheTrackUrl cfg now id extra .ok t bgt true fsm).result
      = some (.str (trackPath id))
  ∧ (cacheTrackUrl cfg now id extra .ok t bgt true fsm).workerCalls = 1
  ∧ (cacheTrackUrl cfg now id extra .ok t bgt true fsm).bgCalls = 0
  ∧ (cacheTrackUrl cfg now2 id extra .ok t bgt true
       (cacheTrackUrl cfg now id extra .ok t bgt true fsm).fs).result
      = some (.str (trackPath id))
  ∧ (cacheTrackUrl cfg now2 id extra .ok t bgt true
       (cacheTrackUrl cfg now id extra .ok t bgt true fsm).fs).workerCalls = 0
  ∧ (cacheTrackUrl cfg now2 id extra .ok t bgt true
       (cacheTrackUrl cfg now id extra .ok t bgt true fsm).fs).bgCalls = 0

/-- C8: a stored entry containing `local_path` short-circuits
`cache_track_url` with the stored value and no network access; and a second
call for a key just fetched successfully returns the identical path as the
first call without a second transport invocation. -/
theorem cacheTrackUrl_hit_short_circuit (cfg : TrackCacheCfg) (now now2 : Nat)
    (id : String) (extra : Entry) (t bgt : Transport) (v : JVal) (fs fsm : FS)
    (e : Entry) (t0 b : Nat)
    (hget : fsGet (cachePath id) fs = some (.record e))
    (ht : getStoredAt e = some t0)
    (hlive : now - t0 ≤ cfg.storage.maxAge)
    (hlp : lookupField e "local_path" = some v)
    (hmiss : fsGet (cachePath id) fsm = none)
    (hb : t 0 = some b)
    (hmr : 0 < cfg.maxRetries)
    (hex : hasField extra "local_path" = false)
    (h2 : now2 - now ≤ cfg.storage.maxAge) :
    HitShortCircuits cfg now now2 id extra t bgt v fs fsm := by
  have part1 := cacheTrackUrl_hit cfg now id extra .ok t bgt fs e t0 v hget ht hlive hlp
  have hw1 := worker_first_success cfg now id extra .ok t fsm b hmiss hb hmr
  have horch1 : cacheTrackUrl cfg now id extra .ok t bgt true fsm
      = ⟨some (.str (trackPath id)), 1, 0,
         store cfg.storage now id
           (mergeFields
             [("track_id", .str id), ("local_path", .str (trackPath id)),
              ("size_bytes", .num b)] extra)
           .ok (fsWrite (trackPath id) (.raw b) fsm)⟩ := by
    simp only [cacheTrackUrl, hw1, if_true]
  have hexnone : lookupField extra "local_path" = none := by
    cases hl : lookupField extra "local_path" with
    | none => rfl
    | some w =>
      rw [hasField, hl] at hex
      simp at hex
  have hlp2 : lookupField
      (setField (mergeFields
        [("track_id", .str id), ("local_path", .str (trackPath id)),
         ("size_bytes", .num b)] extra) "stored_at" (.time now)) "local_path"
      = some (.str (trackPath id)) := by
    rw [lookupField_setField_ne _ "stored_at" "local_path" _ (by decide)]
    rw [lookupField_mergeFields _ extra "local_path" hexnone]
    rw [lookupField, if_neg (by decide), lookupField, if_pos rfl]
  have hget2 : fsGet (cachePath id)
      (store cfg.storage now id
        (mergeFields
          [("track_id", .str id), ("local_path", .str (trackPath id)),
           ("size_bytes", .num b)] extra)
        .ok (fsWrite (trackPath id) (.raw b) fsm))
      = some (.record (setField (mergeFields
          [("track_id", .str id), ("local_path", .str (trackPath id)),
           ("size_bytes", .num b)] extra) "stored_at" (.time now))) := by
    rw [store_ok_eq]
    exact fsGet_fsWrite_self _ _ _
  have hst2 : getStoredAt (setField (mergeFields
      [("track_id", .str id), ("local_path", .str (trackPath id)),
       ("size_bytes", .num b)] extra) "stored_at" (.time now)) = some now := by
    rw [getStoredAt, lookupField_setField_self]
  have part2 := cacheTrackUrl_hit cfg now2 id extra .ok t bgt
    (store cfg.storage now id
      (mergeFields
        [("track_id", .str id), ("local_path", .str (trackPath id)),
         ("size_bytes", .num b)] extra)
      .ok (fsWrite (trackPath id) (.raw b) fsm))
    (setField (mergeFields
      [("track_id", .str id), ("local_path", .str (trackPath id)),
       ("size_bytes", .num b)] extra) "stored_at" (.time now))
    now (.str (trackPath id)) hget2 hst2 h2 hlp2
  refine ⟨part1, ?_, ?_, ?_, ?_, ?_, ?_⟩
  · rw [horch1]
  · rw [horch1]
  · rw [horch1]
  · rw [horch1]
    show (cacheTrackUrl cfg now2 id extra .ok t bgt true _).result = _
    rw [part2]
  · rw [horch1]
    show (cacheTrackUrl cfg now2 id extra .ok t bgt true _).workerCalls = _
    rw [part2]
  · rw [horch1]
    show (cacheTrackUrl cfg now2 id extra .ok t bgt true _).bgCalls = _
    rw [part2]

/-- C8 witness: a concrete cached hit plus a concrete fetch-then-refetch. -/
theorem cacheTrackUrl_hit_short_circuit_witness :
    (fsGet (cachePath "t")
        [("t.cache", FileContent.record
            [("local_path", JVal.str "x.track"), ("stored_at", JVal.time 4)])]
      = some (.record [("local_path", JVal.str "x.track"), ("stored_at", JVal.time 4)])
    ∧ getStoredAt [("local_path", JVal.str "x.track"), ("stored_at", JVal.time 4)] = some 4
    ∧ 5 - 4 ≤ (⟨⟨30, 1000000⟩, 30, 3⟩ : TrackCacheCfg).storage.maxAge
    ∧ lookupField [("local_path", JVal.str "x.track"), ("stored_at", JVal.time 4)] "local_path"
        = some (JVal.str "x.track")
    ∧ fsGet (cachePath "t") ([] : FS) = none
    ∧ (fun _ => some 7 : Transport) 0 = some 7
    ∧ 0 < (⟨⟨30, 1000000⟩, 30, 3⟩ : TrackCacheCfg).maxRetries
    ∧ hasField ([] : Entry) "local_path" = false
    ∧ 6 - 5 ≤ (⟨⟨30, 1000000⟩, 30, 3⟩ : TrackCacheCfg).storage.maxAge)
    ∧ HitShortCircuits ⟨⟨30, 1000000⟩, 30, 3⟩ 5 6 "t" [] (fun _ => some 7) (fun _ => none)
        (JVal.str "x.track")
        [("t.cache", FileContent.record
            [("local_path", JVal.str "x.track"), ("stored_at", JVal.time 4)])]
        [] :=
  ⟨⟨by decide, by decide, by decide, by decide, by decide, by decide, by decide,
    by decide, by decide⟩,
   cacheTrackUrl_hit_short_circuit ⟨⟨30, 1000000⟩, 30, 3⟩ 5 6 "t" [] (fun _ => some 7)
     (fun _ => none) (JVal.str "x.track")
     [("t.cache", FileContent.record
         [("local_path", JVal.str "x.track"), ("stored_at", JVal.time 4)])]
     [] [("local_path", JVal.str "x.track"), ("stored_at", JVal.time 4)] 4 7
     (by decide) (by decide) (by decide) (by decide) (by decide) (by decide)
     (by decide) (by decide) (by decide)⟩

end MopidyQobuz
